import Mathlib

set_option maxHeartbeats 1000000
set_option linter.unusedVariables false

/-! Verification development for the `Fastq_to_seq_summary` core of pycoQC
(src/pycoQC/Fastq_to_seq_summary.py): a shallow embedding of the record
extractor (`FastqParser`), the directory scanner (`_list_fastq`), the parser
worker (`_read_fastq`) and the summary writer (`_write_seq_summary`),
together with theorems about them. -/

/-! ## Generic helpers -/

/-- Floor of a rational, computed from its reduced fraction. -/
def ratFloor (q : ℚ) : ℤ := Int.fdiv q.num (q.den : ℤ)

/-- Python `round` to an integer: round half to even (banker's rounding). -/
def roundHalfEven (q : ℚ) : ℤ :=
  let f : ℤ := ratFloor q
  let frac : ℚ := q - (f : ℚ)
  if frac < 1 / 2 then f
  else if 1 / 2 < frac then f + 1
  else if f % 2 = 0 then f else f + 1

/-- Python `round(x, 2)`: rounding to two decimal places. -/
def round2 (q : ℚ) : ℚ := ((roundHalfEven (q * 100) : ℚ)) / 100

/-- Splitting a character list on every occurrence of a separator character,
as Python `str.split(sep)` with a one-character separator does (empty pieces
are kept). -/
def splitOnChar (sep : Char) : List Char → List Char → List (List Char)
  | [], acc => [acc.reverse]
  | c :: rest, acc =>
    if c = sep then acc.reverse :: splitOnChar sep rest []
    else splitOnChar sep rest (c :: acc)

/-- Python `str.split()` with no argument over a character list: split on runs
of whitespace, producing no empty tokens. -/
def wordsAux : List Char → List Char → List (List Char)
  | [], acc => if acc.isEmpty then [] else [acc.reverse]
  | c :: rest, acc =>
    if c.isWhitespace then
      if acc.isEmpty then wordsAux rest [] else acc.reverse :: wordsAux rest []
    else wordsAux rest (c :: acc)

/-- Python `str.split()` with no argument: split on runs of whitespace,
producing no empty tokens. -/
def splitWhitespace (s : String) : List String :=
  (wordsAux s.data []).map (fun cs => ⟨cs⟩)

/-- The header loop `for i in items[1:]: key, value = i.split('=')` of
`single_fastq_entry_to_dict`: each token must contain exactly one `=`,
otherwise the unpacking raises `ValueError` (modelled as `none`). -/
def parseKeyValues : List String → Option (List (String × String))
  | [] => some []
  | tok :: rest =>
    match splitOnChar '=' tok.data [] with
    | [k, v] => (parseKeyValues rest).map (fun kvs => ((⟨k⟩ : String), (⟨v⟩ : String)) :: kvs)
    | _ => none

/-- Lookup in the Python dict built by inserting the pairs in order:
the last binding of a key wins. -/
def dictLookup (kvs : List (String × String)) (k : String) : Option String :=
  ((kvs.reverse.find? (fun p => p.1 == k)).map (fun p => p.2))

/-- Python `sub in s` substring containment, auxiliary recursion. -/
def strContainsAux (needle : List Char) : List Char → Bool
  | [] => needle.isEmpty
  | c :: rest => needle.isPrefixOf (c :: rest) || strContainsAux needle rest

/-- Python `sub in s` substring containment test. -/
def strContains (s sub : String) : Bool := strContainsAux sub.data s.data

/-! ## Record extractor (`FastqParser`) -/

/-- Modelled from the spec: the Cython routine `functions.compute_average_quality`
(imported from the external `functions` module, whose source is not in the
repository).  Per the spec, the decoded Phred scores are averaged "over the
sequence length"; a zero length makes the division fail (no result). -/
def compute_average_quality (phred_list : List ℤ) (length : Nat) : Option ℚ :=
  if length = 0 then none
  else some ((phred_list.sum : ℚ) / (length : ℚ))

/-- One extracted per-read record, with exactly the fields that
`single_fastq_entry_to_dict` stores for every read.  `start_time` is `some`
of the raw value of the `start_time=` header key when the key is present
(the source parses it with `dateutil.parser.parse` into a timestamp) and
`none` when the key is absent (the source stores `''`). -/
structure ReadRecord where
  read_id : String
  run_id : String
  channel : String
  barcode_arrangement : String
  sequence_length_template : Nat
  mean_qscore_template : ℚ
  gc_percent : ℚ
  start_time : Option String
  passes_filtering : String
deriving DecidableEq

/-- Embedding of `FastqParser.single_fastq_entry_to_dict` (source lines 58-133).
The result is the single `read_id ↦ record` binding the Python function
returns; `none` models an uncaught exception: a list that is not a 4-line
group, a header token without exactly one `=` (ValueError), an empty header
(`items[0]` IndexError), or a zero-length sequence (ZeroDivisionError in the
average-quality and `gc` divisions). -/
def single_fastq_entry_to_dict (fastq_entry : List String) (fastq_name flag : String) :
    Option (String × ReadRecord) :=
  match fastq_entry with
  | [header, seq, _extra, qual] =>
    match parseKeyValues (splitWhitespace header).tail with
    | none => none
    | some read_dict =>
      match (splitWhitespace header).head? with
      | none => none
      | some first =>
        let read_id : String := ⟨first.data.drop 1⟩
        let length := seq.length
        let phred_list := qual.data.map (fun c => (c.toNat : ℤ) - 33)
        match compute_average_quality phred_list length with
        | none => none
        | some avg =>
          if length = 0 then none
          else
            some (read_id,
              { read_id := read_id
                run_id := (dictLookup read_dict "runid").getD ""
                channel := (dictLookup read_dict "ch").getD ""
                barcode_arrangement := (dictLookup read_dict "barcode").getD ""
                sequence_length_template := length
                mean_qscore_template := round2 avg
                gc_percent :=
                  round2 (((seq.data.count 'G' : ℚ) + (seq.data.count 'C' : ℚ))
                    / (length : ℚ) * 100)
                start_time := dictLookup read_dict "start_time"
                passes_filtering := if flag = "pass" then "TRUE" else "FALSE" })
  | _ => none

/-- Python `str.rstrip()`: remove trailing whitespace. -/
def rstripStr (s : String) : String :=
  ⟨(s.data.reverse.dropWhile Char.isWhitespace).reverse⟩

/-- Consecutive 4-line groups of a line list; a trailing partial group is
dropped, as in the `len(lines) == 4` accumulation of `read_entry`. -/
def group4 : List String → List (List String)
  | a :: b :: c :: d :: rest => [a, b, c, d] :: group4 rest
  | _ => []

/-- Python `dict` insertion used by `my_dict.update(...)`: an existing key is
overwritten in place, a new key is appended. -/
def dictInsert (d : List (String × ReadRecord)) (k : String) (v : ReadRecord) :
    List (String × ReadRecord) :=
  if d.any (fun p => p.1 == k) then d.map (fun p => if p.1 == k then (k, v) else p)
  else d ++ [(k, v)]

/-- Embedding of `FastqParser.read_entry` (source lines 46-55): strip each
line, consume whole 4-line groups, merge the per-group dictionaries. -/
def read_entry (entry : List String) (fastq_name flag : String) :
    Option (List (String × ReadRecord)) :=
  (group4 (entry.map rstripStr)).foldl
    (fun acc g =>
      match acc, single_fastq_entry_to_dict g fastq_name flag with
      | some d, some kv => some (dictInsert d kv.1 kv.2)
      | _, _ => none)
    (some [])

/-- Embedding of `os.path.basename(input_fastq).split('.')[0].split('_')[0]` from
`iterate_fastq_parallel` (source line 138). -/
def fastq_name_of (input_fastq : String) : String :=
  let basename := (splitOnChar '/' input_fastq.data []).getLastD []
  let stem := (splitOnChar '.' basename []).headD []
  ⟨(splitOnChar '_' stem []).headD []⟩

/-- The disposition flag computed by `iterate_fastq_parallel` (source lines
140-143): `"fail"` when the word `fail` occurs anywhere in the file path,
`"pass"` otherwise. -/
def file_flag (input_fastq : String) : String :=
  if strContains input_fastq "fail" then "fail" else "pass"

/-- Extraction of one 4-line group of the file at `input_fastq`, with the
name and flag arguments exactly as `iterate_fastq_parallel` passes them. -/
def extract_with_path (input_fastq : String) (entry : List String) :
    Option (String × ReadRecord) :=
  single_fastq_entry_to_dict entry (fastq_name_of input_fastq) (file_flag input_fastq)

/-! ## Parser worker (`Fastq_to_seq_summary._read_fastq`) -/

/-- A value that can occur in the worker's per-read `OrderedDict` `d`. -/
inductive FValue where
  | vStr (s : String)
  | vNat (n : Nat)
  | vRat (q : ℚ)
  | vTime (t : Option String)
deriving DecidableEq

/-- The association view of one extracted read's dictionary, with exactly the
keys `single_fastq_entry_to_dict` stores, in source order (lines 123-131). -/
def readInfoDict (r : ReadRecord) : List (String × FValue) :=
  [("read_id", FValue.vStr r.read_id),
   ("run_id", FValue.vStr r.run_id),
   ("channel", FValue.vStr r.channel),
   ("barcode_arrangement", FValue.vStr r.barcode_arrangement),
   ("sequence_length_template", FValue.vNat r.sequence_length_template),
   ("mean_qscore_template", FValue.vRat r.mean_qscore_template),
   ("gc_percent", FValue.vRat r.gc_percent),
   ("start_time", FValue.vTime r.start_time),
   ("passes_filtering", FValue.vStr r.passes_filtering)]

/-- The nine field keys every extracted read record carries. -/
def validFieldKeys : List String :=
  ["read_id", "run_id", "channel", "barcode_arrangement", "sequence_length_template",
   "mean_qscore_template", "gc_percent", "start_time", "passes_filtering"]

/-- Python `field in read_info_dict` / `read_info_dict[field]`. -/
def lookupField (d : List (String × FValue)) (k : String) : Option FValue :=
  (d.find? (fun p => p.1 == k)).map (fun p => p.2)

/-- Python dict assignment `d[k] = v` on an insertion-ordered dict. -/
def dictSet (d : List (String × FValue)) (k : String) (v : FValue) :
    List (String × FValue) :=
  if d.any (fun p => p.1 == k) then d.map (fun p => if p.1 == k then (k, v) else p)
  else d ++ [(k, v)]

/-- The `collections.Counter` increment `c[k] += 1` (missing keys count as 0). -/
def bump (c : List (String × Nat)) (k : String) : List (String × Nat) :=
  match c with
  | [] => [(k, 1)]
  | (k1, v) :: rest => if k1 == k then (k1, v + 1) :: rest else (k1, v) :: bump rest k

/-- The `collections.Counter` read access `c[k]` (missing keys count as 0). -/
def getCount (c : List (String × Nat)) (k : String) : Nat :=
  match c with
  | [] => 0
  | (k1, v) :: rest => if k1 == k then v else getCount rest k

/-- The worker-local mutable state of `_read_fastq` while it processes one
file: the `OrderedDict` `d`, the snapshots pushed to the record queue, the
`fields_found` / `fields_not_found` counters, and the
`valid files` / `invalid files` overall counts. -/
structure WorkerFileState where
  d : List (String × FValue)
  pushed : List (List (String × FValue))
  ffound : List (String × Nat)
  fnotfound : List (String × Nat)
  valid : Nat
  invalid : Nat
deriving DecidableEq

/-- The fresh state a worker starts with. -/
def initWorkerState : WorkerFileState := ⟨[], [], [], [], 0, 0⟩

/-- The inner `for field in self.fields` loop of `_read_fastq` (source lines
309-314) for one read. -/
def fieldsFold (fields : List String) (r : ReadRecord) (st : WorkerFileState) :
    WorkerFileState :=
  fields.foldl
    (fun st field =>
      match lookupField (readInfoDict r) field with
      | some v => { st with d := dictSet st.d field v, ffound := bump st.ffound field }
      | none => { st with fnotfound := bump st.fnotfound field })
    st

/-- One iteration of the per-read loop of `_read_fastq` (source lines
308-324): fetch the allow-listed fields into `d`, optionally add the source
path, then push a snapshot of `d` unless `d` is empty, in which case the read
counts as invalid. -/
def processRead (fields : List String) (includePath : Bool) (path : String)
    (st : WorkerFileState) (r : ReadRecord) : WorkerFileState :=
  let st1 := fieldsFold fields r st
  let st2 :=
    if includePath then { st1 with d := dictSet st1.d "path" (FValue.vStr path) } else st1
  if st2.d = [] then { st2 with invalid := st2.invalid + 1 }
  else { st2 with pushed := st2.pushed ++ [st2.d], valid := st2.valid + 1 }

/-- Processing of one file's extracted reads in `_read_fastq`: the dict
`d = OrderedDict()` is created once per file (source line 299) and then
reused across every read of that file. -/
def read_fastq_file (fields : List String) (includePath : Bool) (path : String)
    (st : WorkerFileState) (reads : List ReadRecord) : WorkerFileState :=
  reads.foldl (processRead fields includePath path) { st with d := [] }

/-! ## Directory scanner (`Fastq_to_seq_summary._list_fastq`) -/

/-- The enumeration loop of `_list_fastq` (source lines 266-271): count each
file, break once the nonzero cap is hit (before pushing that file), otherwise
push the path.  Returns the pushed paths and the final value of `i`. -/
def listLoop (maxFastq : Nat) : List String → Nat → List String × Nat
  | [], i => ([], i)
  | f :: fs, i =>
    if maxFastq ≠ 0 ∧ i + 1 = maxFastq then ([], i + 1)
    else
      let rest := listLoop maxFastq fs (i + 1)
      (f :: rest.1, rest.2)

/-- What the scanner leaves on the queues. -/
structure ScannerResult where
  pushed : List String
  errors : Nat
  sentinels : Nat
deriving DecidableEq

/-- Embedding of `Fastq_to_seq_summary._list_fastq` (source lines 257-284).
`files` stands for the paths yielded by `recursive_file_gen` (a helper of
`pycoQC.common`, whose source is not in the repository; per the spec it
enumerates matching files recursively in a deterministic order).  `threads`
is `self.threads`, the number of parser workers.  `errors` counts tracebacks
put on the error queue: one when zero files were found.  The `finally` block
always pushes one `None` sentinel per worker. -/
def list_fastq (files : List String) (maxFastq threads : Nat) : ScannerResult :=
  let loop := listLoop maxFastq files 0
  { pushed := loop.1
    errors := if loop.2 = 0 then 1 else 0
    sentinels := threads }

/-! ## Summary writer (`Fastq_to_seq_summary._write_seq_summary`) -/

/-- Minimum of a list of integers, `none` for the empty list
(`pandas` `Series.min` skips missing values, so only the present timestamps
take part). -/
def listMin? : List Int → Option Int
  | [] => none
  | x :: xs =>
    match listMin? xs with
    | none => some x
    | some m => some (min x m)

/-- One row of the writer's DataFrame: the `read_id` column stands for all
non-time columns of the accumulated record, and `start_time` is the parsed
timestamp of the `start_time` column after `pd.to_datetime`, as an integer
number of time units — `none` is the missing marker (`NaT`/`NaN`). -/
structure SummaryRow where
  read_id : String
  start_time : Option Int
deriving DecidableEq

/-- Embedding of `df.loc[:, 'start_time'].min()` (source line 359). -/
def time_zero (rows : List SummaryRow) : Option Int :=
  listMin? (rows.filterMap (fun r => r.start_time))

/-- Embedding of the persistence step of `_write_seq_summary` (source lines
351-368) on the accumulated rows, in arrival order: convert `start_time` to
timestamps, subtract the column minimum, cast to integer seconds (the cast is
skipped when missing values are present), then write the table.  `none`
models the run aborting before `to_csv`: with no accumulated record the
DataFrame has no columns at all and `df['start_time']` raises `KeyError`.
No reordering of the rows happens anywhere in the writer. -/
def write_seq_summary (rows : List SummaryRow) : Option (List SummaryRow) :=
  if rows.isEmpty then none
  else
    match time_zero rows with
    | none => some rows
    | some t0 =>
      some (rows.map (fun r => { r with start_time := r.start_time.map (fun t => t - t0) }))

/-- Whether consecutive present `start_time` values are non-decreasing. -/
def rowLE (a b : SummaryRow) : Bool :=
  match a.start_time, b.start_time with
  | some ta, some tb => decide (ta ≤ tb)
  | _, _ => true

/-- Whether a row list is sorted by its present `start_time` values. -/
def sortedByStartTime : List SummaryRow → Bool
  | a :: b :: rest => rowLE a b && sortedByStartTime (b :: rest)
  | _ => true

/-! ## Scanner theorems -/

theorem listLoop_zero_cap : ∀ (files : List String) (i : Nat),
    (listLoop 0 files i).1 = files := by
  intro files
  induction files with
  | nil => intro i; simp [listLoop]
  | cons f fs ih => intro i; simp [listLoop, ih (i + 1)]

theorem listLoop_take (maxFastq : Nat) (hm : maxFastq ≠ 0) :
    ∀ (files : List String) (i : Nat), i < maxFastq →
      (listLoop maxFastq files i).1 = files.take (maxFastq - 1 - i) := by
  intro files
  induction files with
  | nil => intro i _; simp [listLoop]
  | cons f fs ih =>
    intro i hi
    by_cases hbreak : i + 1 = maxFastq
    · have h0 : maxFastq - 1 - i = 0 := by omega
      simp [listLoop, hm, hbreak, h0]
    · have hi1 : i + 1 < maxFastq := by omega
      have hk : maxFastq - 1 - i = (maxFastq - 1 - (i + 1)) + 1 := by omega
      simp [listLoop, hm, hbreak, ih (i + 1) hi1, hk]

/-- C3 (amended): for a nonzero cap `M` the scanner pushes exactly the first
`min (M - 1) K` of the `K` matching paths — the loop breaks upon counting the
`M`-th file before pushing it — and with cap `0` it pushes all `K` paths. -/
theorem list_fastq_pushed_eq (files : List String) (maxFastq threads : Nat) :
    (list_fastq files maxFastq threads).pushed =
      (if maxFastq = 0 then files else files.take (maxFastq - 1)) ∧
    (list_fastq files maxFastq threads).pushed.length =
      (if maxFastq = 0 then files.length else min (maxFastq - 1) files.length) := by
  by_cases hm : maxFastq = 0
  · simp [list_fastq, hm, listLoop_zero_cap]
  · have h := listLoop_take maxFastq hm files 0 (by omega)
    simp [list_fastq, hm, h, List.length_take]

/-- C3 (counterexample): with cap `2` over three matching files the scanner
pushes a single path, not `min 2 3 = 2` of them. -/
theorem list_fastq_cap_cex :
    (list_fastq ["a", "b", "c"] 2 1).pushed = ["a"] ∧
    (list_fastq ["a", "b", "c"] 2 1).pushed.length ≠ min 2 3 := by decide

/-- C9: over a directory with zero matching files the scanner reports exactly
one fatal error on the error channel, pushes no path, and still pushes exactly
one sentinel per downstream worker; the writer, left with no accumulated
record, aborts before `to_csv`, so no output file is produced. -/
theorem scanner_zero_files (maxFastq threads : Nat) :
    (list_fastq [] maxFastq threads).errors = 1 ∧
    (list_fastq [] maxFastq threads).sentinels = threads ∧
    (list_fastq [] maxFastq threads).pushed = [] ∧
    write_seq_summary [] = none :=
  ⟨rfl, rfl, rfl, rfl⟩

/-! ## Writer theorems -/

theorem listMin?_mem : ∀ (l : List Int) (m : Int), listMin? l = some m → m ∈ l := by
  intro l
  induction l with
  | nil => intro m h; simp [listMin?] at h
  | cons x xs ih =>
    intro m h
    unfold listMin? at h
    rcases hx : listMin? xs with _ | m2
    · rw [hx] at h
      simp at h
      simp [h]
    · rw [hx] at h
      simp at h
      rcases min_cases x m2 with ⟨hm, _⟩ | ⟨hm, _⟩
    
      · simp [← h, hm]
      · right
        rw [← h, hm]
        exact ih m2 hx

theorem listMin?_ne_none (x : Int) (xs : List Int) : listMin? (x :: xs) ≠ none := by
  unfold listMin?
  rcases listMin? xs <;> simp

theorem listMin?_le : ∀ (l : List Int) (m : Int), listMin? l = some m →
    ∀ x ∈ l, m ≤ x := by
  intro l
  induction l with
  | nil => intro m h; simp [listMin?] at h
  | cons x xs ih =>
    intro m h y hy
    unfold listMin? at h
    rcases hx : listMin? xs with _ | m2
    · rw [hx] at h
      simp at h
      cases xs with
      | nil =>
        simp at hy
        rw [hy, ← h]
      | cons a as => exact absurd hx (listMin?_ne_none a as)
    · rw [hx] at h
      simp at h
      rcases List.mem_cons.mp hy with hy1 | hy2
      · rw [hy1, ← h]
        exact min_le_left x m2
      · calc m ≤ m2 := by rw [← h]; exact min_le_right x m2
          _ ≤ y := ih m2 hx y hy2

theorem time_zero_le (rows : List SummaryRow) (t0 : Int) (h : time_zero rows = some t0) :
    ∀ r ∈ rows, ∀ t, r.start_time = some t → t0 ≤ t := by
  intro r hr t ht
  refine listMin?_le _ t0 h t ?_
  exact List.mem_filterMap.mpr ⟨r, hr, ht⟩

theorem time_zero_attained (rows : List SummaryRow) (t0 : Int) (h : time_zero rows = some t0) :
    ∃ r ∈ rows, r.start_time = some t0 := by
  have := listMin?_mem _ t0 h
  exact List.mem_filterMap.mp this

theorem time_zero_rows_ne_nil (rows : List SummaryRow) (t0 : Int)
    (h : time_zero rows = some t0) : rows ≠ [] := by
  intro hnil
  rw [hnil] at h
  simp [time_zero, listMin?] at h

/-- C6: when at least one accumulated record has a parseable timestamp, the
writer rewrites every `start_time` as the elapsed time since the minimum
parseable timestamp `t0`: it does not abort, every row keeps its identity and
order, a missing timestamp stays the missing marker, every rewritten value is
nonnegative, any record carrying the globally earliest timestamp ends with
`start_time = 0`, and some row does end with `start_time = 0`. -/
theorem write_seq_summary_normalizes (rows : List SummaryRow) (t0 : Int)
    (h : time_zero rows = some t0) :
    ∃ out, write_seq_summary rows = some out ∧
      List.Forall₂
        (fun a b => b.read_id = a.read_id ∧
          b.start_time = a.start_time.map (fun t => t - t0)) rows out ∧
      (∀ b ∈ out, ∀ t, b.start_time = some t → 0 ≤ t) ∧
      (∀ a ∈ rows, a.start_time = some t0 →
        ∃ b ∈ out, b.read_id = a.read_id ∧ b.start_time = some 0) ∧
      (∃ b ∈ out, b.start_time = some 0) := by
  have hne : rows ≠ [] := time_zero_rows_ne_nil rows t0 h
  have hemp : rows.isEmpty = false := by
    cases rows with
    | nil => exact absurd rfl hne
    | cons a l => rfl
  refine ⟨rows.map (fun r => { r with start_time := r.start_time.map (fun t => t - t0) }), ?_, ?_, ?_, ?_, ?_⟩
  · simp only [write_seq_summary, hemp, Bool.false_eq_true, if_false, h]
  · rw [List.forall₂_map_right_iff]
    rw [List.forall₂_same]
    intro a _
    exact ⟨rfl, rfl⟩
  · intro b hb t ht
    obtain ⟨a, ha, hab⟩ := List.mem_map.mp hb
    rw [← hab] at ht
    simp only at ht
    rcases hsa : a.start_time with _ | ta
    · rw [hsa] at ht; simp at ht
    · rw [hsa] at ht
      simp at ht
      have := time_zero_le rows t0 h a ha ta hsa
      omega
  · intro a ha hat
    refine ⟨{ a with start_time := a.start_time.map (fun t => t - t0) }, List.mem_map_of_mem _ ha, rfl, ?_⟩
    rw [hat]
    simp
  · obtain ⟨a, ha, hat⟩ := time_zero_attained rows t0 h
    refine ⟨{ a with start_time := a.start_time.map (fun t => t - t0) }, List.mem_map_of_mem _ ha, ?_⟩
    rw [hat]
    simp

/-- C6 (witness): the normalization theorem applied to a concrete accumulated
record set with timestamps 5, missing, and 2. -/
theorem write_seq_summary_normalizes_witness :
    time_zero [⟨"a", some 5⟩, ⟨"b", none⟩, ⟨"c", some 2⟩] = some 2 ∧
    (∃ out : List SummaryRow,
      write_seq_summary [⟨"a", some 5⟩, ⟨"b", none⟩, ⟨"c", some 2⟩] = some out ∧
      List.Forall₂
        (fun (a b : SummaryRow) => b.read_id = a.read_id ∧
          b.start_time = a.start_time.map (fun t => t - 2))
        [⟨"a", some 5⟩, ⟨"b", none⟩, ⟨"c", some 2⟩] out ∧
      (∀ b ∈ out, ∀ t, b.start_time = some t → 0 ≤ t) ∧
      (∀ a ∈ [(⟨"a", some 5⟩ : SummaryRow), ⟨"b", none⟩, ⟨"c", some 2⟩], a.start_time = some 2 →
        ∃ b ∈ out, b.read_id = a.read_id ∧ b.start_time = some 0) ∧
      (∃ b ∈ out, b.start_time = some 0)) :=
  ⟨by decide, write_seq_summary_normalizes [⟨"a", some 5⟩, ⟨"b", none⟩, ⟨"c", some 2⟩] 2 (by decide)⟩

/-- C1 (counterexample): the writer applies no re-sort before persisting: two
records arriving with timestamps 10 then 3 are persisted in that arrival
order, with normalized `start_time` values 7 then 0, which is not sorted by
normalized `start_time`; reversing the arrival order changes the persisted
order, so runs differing only in record arrival order produce different
outputs. -/
theorem write_seq_summary_not_sorted_cex :
    write_seq_summary [⟨"r1", some 10⟩, ⟨"r2", some 3⟩] =
      some [⟨"r1", some 7⟩, ⟨"r2", some 0⟩] ∧
    sortedByStartTime [⟨"r1", some 7⟩, ⟨"r2", some 0⟩] = false ∧
    write_seq_summary [⟨"r2", some 3⟩, ⟨"r1", some 10⟩] ≠
      write_seq_summary [⟨"r1", some 10⟩, ⟨"r2", some 3⟩] := by decide

/-- C1 (amended): the persisted table keeps the records in arrival order —
the writer only rewrites `start_time` and never reorders rows, so the output
ordering contract is arrival order, not sortedness by normalized
`start_time`. -/
theorem write_seq_summary_arrival_order (rows : List SummaryRow) (h : rows ≠ []) :
    ∃ out, write_seq_summary rows = some out ∧
      out.map SummaryRow.read_id = rows.map SummaryRow.read_id := by
  have hemp : rows.isEmpty = false := by
    cases rows with
    | nil => exact absurd rfl h
    | cons a l => rfl
  rcases htz : time_zero rows with _ | t0
  · refine ⟨rows, ?_, rfl⟩
    simp only [write_seq_summary, hemp, Bool.false_eq_true, if_false, htz]
  · refine ⟨rows.map (fun r => { r with start_time := r.start_time.map (fun t => t - t0) }), ?_, ?_⟩
    · simp only [write_seq_summary, hemp, Bool.false_eq_true, if_false, htz]
    · rw [List.map_map]
      rfl

/-- C1 (amended, witness): arrival order preservation on a concrete pair of
records. -/
theorem write_seq_summary_arrival_order_witness :
    ([(⟨"r1", some 10⟩ : SummaryRow), ⟨"r2", some 3⟩] ≠ []) ∧
    (∃ out, write_seq_summary [⟨"r1", some 10⟩, ⟨"r2", some 3⟩] = some out ∧
      out.map SummaryRow.read_id =
        [(⟨"r1", some 10⟩ : SummaryRow), ⟨"r2", some 3⟩].map SummaryRow.read_id) :=
  ⟨by decide, write_seq_summary_arrival_order [⟨"r1", some 10⟩, ⟨"r2", some 3⟩] (by decide)⟩

/-! ## Extractor theorems -/

theorem single_fastq_some_elim (header seq extra qual fastq_name flag rid : String)
    (r : ReadRecord)
    (h : single_fastq_entry_to_dict [header, seq, extra, qual] fastq_name flag =
      some (rid, r)) :
    ∃ kvs first,
      parseKeyValues (splitWhitespace header).tail = some kvs ∧
      (splitWhitespace header).head? = some first ∧
      seq.length ≠ 0 ∧
      rid = (⟨first.data.drop 1⟩ : String) ∧
      r = { read_id := (⟨first.data.drop 1⟩ : String)
            run_id := (dictLookup kvs "runid").getD ""
            channel := (dictLookup kvs "ch").getD ""
            barcode_arrangement := (dictLookup kvs "barcode").getD ""
            sequence_length_template := seq.length
            mean_qscore_template :=
              round2 (((qual.data.map (fun c => (c.toNat : ℤ) - 33)).sum : ℚ) /
                (seq.length : ℚ))
            gc_percent :=
              round2 (((seq.data.count 'G' : ℚ) + (seq.data.count 'C' : ℚ)) /
                (seq.length : ℚ) * 100)
            start_time := dictLookup kvs "start_time"
            passes_filtering := if flag = "pass" then "TRUE" else "FALSE" } := by
  simp only [single_fastq_entry_to_dict] at h
  rcases hp : parseKeyValues (splitWhitespace header).tail with _ | kvs
  · rw [hp] at h
    simp at h
  · rw [hp] at h
    rcases hh : (splitWhitespace header).head? with _ | first
    · rw [hh] at h
      simp at h
    · rw [hh] at h
      by_cases hlen : seq.length = 0
      · simp only [compute_average_quality, hlen, if_true, ite_true] at h
        simp at h
      · simp only [compute_average_quality, hlen, if_false, ite_false] at h
        simp only [Option.some.injEq, Prod.mk.injEq] at h
        exact ⟨kvs, first, rfl, rfl, hlen, h.1.symm, h.2.symm⟩

/-- C5 (counterexample): on the concrete 4-line read group with an empty
sequence line, record extraction does not complete — the Python code raises
`ZeroDivisionError` in the average-quality and `gc_percent` divisions
(modelled as no result), so `mean_quality`/`gc_percent` are neither computed
as 0 nor is the record skipped with the rest of the file surviving. -/
theorem single_fastq_zero_length_aborts :
    single_fastq_entry_to_dict ["@read1", "", "+", ""] "read1" "pass" = none ∧
    single_fastq_entry_to_dict ["@read1 runid=r1", "", "+", ""] "read1" "fail" = none := by
  with_unfolding_all decide

/-- C5 (amended): for every 4-line read group whose sequence line is empty,
record extraction aborts with a division-by-zero error (the `gc` and
average-quality divisions divide by `float(length)` with `length == 0`);
it never yields a record. -/
theorem zero_length_extraction_aborts (header seq extra qual fastq_name flag : String)
    (hseq : seq.length = 0) :
    single_fastq_entry_to_dict [header, seq, extra, qual] fastq_name flag = none := by
  simp only [single_fastq_entry_to_dict]
  rcases hp : parseKeyValues (splitWhitespace header).tail with _ | kvs
  · rfl
  rcases hh : (splitWhitespace header).head? with _ | first
  · rfl
  simp [compute_average_quality, hseq]

/-- C5 (amended, witness): the zero-length abort applied to a concrete group
with a well-formed header. -/
theorem zero_length_extraction_aborts_witness :
    ("" : String).length = 0 ∧
    single_fastq_entry_to_dict ["@w1 ch=7", "", "+", ""] "w" "pass" = none :=
  ⟨rfl, zero_length_extraction_aborts "@w1 ch=7" "" "+" "" "w" "pass" rfl⟩

/-- C7: for every 4-line read group that extraction accepts (which forces a
non-empty sequence), the mean quality field equals the sum of `ord c - 33`
over the quality string's characters, divided by the sequence length and
rounded to two decimal places; the quality string of four `!` characters
(ASCII 33) yields 0 and a quality string of four ASCII-73 characters yields
40. -/
theorem mean_quality_formula (header seq extra qual fastq_name flag rid : String)
    (r : ReadRecord)
    (h : single_fastq_entry_to_dict [header, seq, extra, qual] fastq_name flag =
      some (rid, r)) :
    r.mean_qscore_template =
      round2 (((qual.data.map (fun c => (c.toNat : ℤ) - 33)).sum : ℚ) / (seq.length : ℚ)) ∧
    (single_fastq_entry_to_dict ["@q1", "ACGT", "+", "!!!!"] "x" "pass").map
      (fun p => p.2.mean_qscore_template) = some 0 ∧
    (single_fastq_entry_to_dict ["@q2", "ACGT", "+", "IIII"] "x" "pass").map
      (fun p => p.2.mean_qscore_template) = some 40 := by
  obtain ⟨kvs, first, hp, hh, hlen, hrid, hr⟩ :=
    single_fastq_some_elim header seq extra qual fastq_name flag rid r h
  refine ⟨by rw [hr], by with_unfolding_all decide, by with_unfolding_all decide⟩

/-- C7 (witness): the mean-quality formula applied to the concrete read group
with sequence `ACGT` and quality `!!!!`. -/
theorem mean_quality_formula_witness :
    single_fastq_entry_to_dict ["@q1", "ACGT", "+", "!!!!"] "x" "pass" =
      some ("q1",
        { read_id := "q1", run_id := "", channel := "", barcode_arrangement := ""
          sequence_length_template := 4, mean_qscore_template := 0, gc_percent := 50
          start_time := none, passes_filtering := "TRUE" }) ∧
    (({ read_id := "q1", run_id := "", channel := "", barcode_arrangement := ""
        sequence_length_template := 4, mean_qscore_template := 0, gc_percent := 50
        start_time := none, passes_filtering := "TRUE" } : ReadRecord).mean_qscore_template =
      round2 ((("!!!!".data.map (fun c => (c.toNat : ℤ) - 33)).sum : ℚ) /
        (("ACGT" : String).length : ℚ)) ∧
     (single_fastq_entry_to_dict ["@q1", "ACGT", "+", "!!!!"] "x" "pass").map
       (fun p => p.2.mean_qscore_template) = some 0 ∧
     (single_fastq_entry_to_dict ["@q2", "ACGT", "+", "IIII"] "x" "pass").map
       (fun p => p.2.mean_qscore_template) = some 40) :=
  ⟨by with_unfolding_all decide,
   mean_quality_formula "@q1" "ACGT" "+" "!!!!" "x" "pass" "q1"
     { read_id := "q1", run_id := "", channel := "", barcode_arrangement := ""
       sequence_length_template := 4, mean_qscore_template := 0, gc_percent := 50
       start_time := none, passes_filtering := "TRUE" }
     (by with_unfolding_all decide)⟩

/-- C8: for every 4-line read group that extraction accepts (which forces a
non-empty sequence), the GC percent field equals 100 times the count of the
literal characters `G` and `C` in the sequence (case-sensitively), divided by
the sequence length and rounded to two decimal places; sequence `GGCC` yields
100 and sequence `AATT` yields 0. -/
theorem gc_percent_formula (header seq extra qual fastq_name flag rid : String)
    (r : ReadRecord)
    (h : single_fastq_entry_to_dict [header, seq, extra, qual] fastq_name flag =
      some (rid, r)) :
    r.gc_percent =
      round2 (100 * ((seq.data.count 'G' : ℚ) + (seq.data.count 'C' : ℚ)) /
        (seq.length : ℚ)) ∧
    (single_fastq_entry_to_dict ["@g1", "GGCC", "+", "IIII"] "x" "pass").map
      (fun p => p.2.gc_percent) = some 100 ∧
    (single_fastq_entry_to_dict ["@g2", "AATT", "+", "IIII"] "x" "pass").map
      (fun p => p.2.gc_percent) = some 0 := by
  obtain ⟨kvs, first, hp, hh, hlen, hrid, hr⟩ :=
    single_fastq_some_elim header seq extra qual fastq_name flag rid r h
  refine ⟨?_, by with_unfolding_all decide, by with_unfolding_all decide⟩
  rw [hr]
  show round2 _ = round2 _
  congr 1
  ring

/-- C8 (witness): the GC-percent formula applied to the concrete read group
with sequence `GGCC`. -/
theorem gc_percent_formula_witness :
    single_fastq_entry_to_dict ["@g1", "GGCC", "+", "IIII"] "x" "pass" =
      some ("g1",
        { read_id := "g1", run_id := "", channel := "", barcode_arrangement := ""
          sequence_length_template := 4, mean_qscore_template := 40, gc_percent := 100
          start_time := none, passes_filtering := "TRUE" }) ∧
    (({ read_id := "g1", run_id := "", channel := "", barcode_arrangement := ""
        sequence_length_template := 4, mean_qscore_template := 40, gc_percent := 100
        start_time := none, passes_filtering := "TRUE" } : ReadRecord).gc_percent =
      round2 (100 * (("GGCC".data.count 'G' : ℚ) + ("GGCC".data.count 'C' : ℚ)) /
        (("GGCC" : String).length : ℚ)) ∧
     (single_fastq_entry_to_dict ["@g1", "GGCC", "+", "IIII"] "x" "pass").map
       (fun p => p.2.gc_percent) = some 100 ∧
     (single_fastq_entry_to_dict ["@g2", "AATT", "+", "IIII"] "x" "pass").map
       (fun p => p.2.gc_percent) = some 0) :=
  ⟨by with_unfolding_all decide,
   gc_percent_formula "@g1" "GGCC" "+" "IIII" "x" "pass" "g1"
     { read_id := "g1", run_id := "", channel := "", barcode_arrangement := ""
       sequence_length_template := 4, mean_qscore_template := 40, gc_percent := 100
       start_time := none, passes_filtering := "TRUE" }
     (by with_unfolding_all decide)⟩

/-- C10: every record the extractor emits for a file carries a
`passes_filtering` value that is exactly one of the two strings `TRUE` and
`FALSE`, and it is `FALSE` precisely when the substring `fail` occurs
anywhere in the input file's path (directory components included). -/
theorem passes_filtering_values (input_fastq : String) (entry : List String)
    (rid : String) (r : ReadRecord)
    (h : extract_with_path input_fastq entry = some (rid, r)) :
    (r.passes_filtering = "TRUE" ∨ r.passes_filtering = "FALSE") ∧
    (r.passes_filtering = "FALSE" ↔ strContains input_fastq "fail" = true) := by
  rcases entry with _ | ⟨header, entry⟩
  · simp [extract_with_path, single_fastq_entry_to_dict] at h
  rcases entry with _ | ⟨seq, entry⟩
  · simp [extract_with_path, single_fastq_entry_to_dict] at h
  rcases entry with _ | ⟨extra, entry⟩
  · simp [extract_with_path, single_fastq_entry_to_dict] at h
  rcases entry with _ | ⟨qual, entry⟩
  · simp [extract_with_path, single_fastq_entry_to_dict] at h
  rcases entry with _ | ⟨junk, entry⟩
  case cons.cons.cons.cons.cons =>
    simp [extract_with_path, single_fastq_entry_to_dict] at h
  obtain ⟨kvs, first, hp, hh, hlen, hrid, hr⟩ :=
    single_fastq_some_elim header seq extra qual (fastq_name_of input_fastq)
      (file_flag input_fastq) rid r h
  rw [hr]
  by_cases hc : strContains input_fastq "fail" = true
  · have hf : file_flag input_fastq = "fail" := by simp [file_flag, hc]
    simp [hf, hc]
  · have hf : file_flag input_fastq = "pass" := by simp [file_flag, hc]
    simp [hf, hc]

/-- C10 (witness): a read extracted from a file whose path contains `fail`
in a directory component gets `passes_filtering = "FALSE"`. -/
theorem passes_filtering_values_witness :
    extract_with_path "/data/fail/x.fastq" ["@id1 runid=r1", "ACGT", "+", "IIII"] =
      some ("id1",
        { read_id := "id1", run_id := "r1", channel := "", barcode_arrangement := ""
          sequence_length_template := 4, mean_qscore_template := 40, gc_percent := 50
          start_time := none, passes_filtering := "FALSE" }) ∧
    ((({ read_id := "id1", run_id := "r1", channel := "", barcode_arrangement := ""
         sequence_length_template := 4, mean_qscore_template := 40, gc_percent := 50
         start_time := none, passes_filtering := "FALSE" } : ReadRecord).passes_filtering = "TRUE" ∨
      ({ read_id := "id1", run_id := "r1", channel := "", barcode_arrangement := ""
         sequence_length_template := 4, mean_qscore_template := 40, gc_percent := 50
         start_time := none, passes_filtering := "FALSE" } : ReadRecord).passes_filtering = "FALSE") ∧
     (({ read_id := "id1", run_id := "r1", channel := "", barcode_arrangement := ""
         sequence_length_template := 4, mean_qscore_template := 40, gc_percent := 50
         start_time := none, passes_filtering := "FALSE" } : ReadRecord).passes_filtering = "FALSE" ↔
       strContains "/data/fail/x.fastq" "fail" = true)) :=
  ⟨by with_unfolding_all decide,
   passes_filtering_values "/data/fail/x.fastq" ["@id1 runid=r1", "ACGT", "+", "IIII"] "id1"
     { read_id := "id1", run_id := "r1", channel := "", barcode_arrangement := ""
       sequence_length_template := 4, mean_qscore_template := 40, gc_percent := 50
       start_time := none, passes_filtering := "FALSE" }
     (by with_unfolding_all decide)⟩

/-! ## Worker theorems -/

theorem lookupField_isSome_iff (d : List (String × FValue)) (k : String) :
    (lookupField d k).isSome = true ↔ k ∈ d.map Prod.fst := by
  induction d with
  | nil => simp [lookupField]
  | cons p rest ih =>
    by_cases hk : p.1 = k
    · have hb : (p.1 == k) = true := by simp [hk]
      simp [lookupField, List.find?_cons, hb, hk]
    · have hb : (p.1 == k) = false := by simp [hk]
      simp only [lookupField, List.find?_cons, hb, List.map_cons, List.mem_cons] at ih ⊢
      rw [ih]
      constructor
      · intro hm; right; exact hm
      · intro hm
        rcases hm with hm | hm
        · exact absurd hm.symm hk
        · exact hm

theorem lookupField_readInfo_none_iff (r : ReadRecord) (k : String) :
    lookupField (readInfoDict r) k = none ↔ k ∉ validFieldKeys := by
  have h := lookupField_isSome_iff (readInfoDict r) k
  rw [show (readInfoDict r).map Prod.fst = validFieldKeys from rfl] at h
  rw [← h]
  rcases lookupField (readInfoDict r) k <;> simp

theorem fieldsFold_cons (f : String) (fs : List String) (r : ReadRecord)
    (st : WorkerFileState) :
    fieldsFold (f :: fs) r st =
      fieldsFold fs r
        (match lookupField (readInfoDict r) f with
          | some v => { st with d := dictSet st.d f v, ffound := bump st.ffound f }
          | none => { st with fnotfound := bump st.fnotfound f }) := rfl

theorem getCount_bump (c : List (String × Nat)) (k1 k : String) :
    getCount (bump c k1) k = getCount c k + (if k1 = k then 1 else 0) := by
  induction c with
  | nil => by_cases h : k1 = k <;> simp [bump, getCount, h]
  | cons p rest ih =>
    obtain ⟨pk, pv⟩ := p
    by_cases h1 : pk = k1
    · subst h1
      by_cases h2 : pk = k
      · subst h2
        simp [bump, getCount]
      · simp [bump, getCount, h2]
    · have hb : (pk == k1) = false := by simp [h1]
      by_cases h2 : pk = k
      · subst h2
        have hk1 : ¬ k1 = pk := fun h => h1 h.symm
        simp [bump, getCount, hb, hk1]
      · simp [bump, getCount, hb, h2, ih]

theorem fieldsFold_counts (r : ReadRecord) (k : String) (hk : k ∈ validFieldKeys) :
    ∀ (fields : List String) (st : WorkerFileState),
      getCount (fieldsFold fields r st).ffound k = getCount st.ffound k + fields.count k ∧
      getCount (fieldsFold fields r st).fnotfound k = getCount st.fnotfound k := by
  intro fields
  induction fields with
  | nil => intro st; simp [fieldsFold]
  | cons f fs ih =>
    intro st
    rw [fieldsFold_cons]
    rcases hf : lookupField (readInfoDict r) f with _ | v
    · have hfk : ¬ f = k := by
        intro he
        exact ((lookupField_readInfo_none_iff r f).mp hf) (he ▸ hk)
      have hcnt : (f :: fs).count k = fs.count k := by
        simp [List.count_cons, hfk]
      rw [hcnt]
      refine ⟨(ih _).1, ?_⟩
      rw [(ih _).2]
      simp [getCount_bump, hfk]
    · have hcnt : (f :: fs).count k = fs.count k + (if f = k then 1 else 0) := by
        by_cases hfk : f = k <;> simp [List.count_cons, hfk]
      rw [hcnt]
      refine ⟨?_, (ih _).2⟩
      rw [(ih _).1]
      simp [getCount_bump]
      omega

theorem processRead_ffound (fields : List String) (includePath : Bool) (path : String)
    (st : WorkerFileState) (r : ReadRecord) :
    (processRead fields includePath path st r).ffound = (fieldsFold fields r st).ffound := by
  cases includePath <;>
    simp [processRead, apply_ite WorkerFileState.ffound]

theorem processRead_fnotfound (fields : List String) (includePath : Bool) (path : String)
    (st : WorkerFileState) (r : ReadRecord) :
    (processRead fields includePath path st r).fnotfound =
      (fieldsFold fields r st).fnotfound := by
  cases includePath <;>
    simp [processRead, apply_ite WorkerFileState.fnotfound]

/-- C4 (counterexample): for a header carrying no `barcode=` token the
extracted record's barcode field is the empty string and extraction does not
fail, but the worker then counts the barcode field as FOUND — its "not
found" counter stays at 0 while the "found" counter becomes 1, contradicting
the claimed "not found" increment. -/
theorem barcode_missing_counter_cex :
    (single_fastq_entry_to_dict ["@id1 runid=r1", "ACGT", "+", "IIII"] "x" "pass").map
      (fun p => (p.2.barcode_arrangement,
        getCount (processRead ["barcode_arrangement"] false "p" initWorkerState p.2).fnotfound
          "barcode_arrangement",
        getCount (processRead ["barcode_arrangement"] false "p" initWorkerState p.2).ffound
          "barcode_arrangement")) =
      some ("", 0, 1) := by with_unfolding_all decide

/-- C4 (amended): for every 4-line read group that extraction accepts and
whose header has no `barcode=` token, the record's barcode field is the empty
string (the missing key never raises), and when the worker projects the
record onto its field list it leaves the "not found" counter for
`barcode_arrangement` unchanged and increments the "found" counter once per
occurrence of `barcode_arrangement` in the field list — the key is always
present in the extracted record, holding the empty string. -/
theorem barcode_missing_found (header seq extra qual fastq_name flag rid path : String)
    (r : ReadRecord) (kvs : List (String × String)) (fields : List String)
    (includePath : Bool) (st : WorkerFileState)
    (hkv : parseKeyValues (splitWhitespace header).tail = some kvs)
    (hb : dictLookup kvs "barcode" = none)
    (h : single_fastq_entry_to_dict [header, seq, extra, qual] fastq_name flag =
      some (rid, r)) :
    r.barcode_arrangement = "" ∧
    getCount (processRead fields includePath path st r).fnotfound "barcode_arrangement" =
      getCount st.fnotfound "barcode_arrangement" ∧
    getCount (processRead fields includePath path st r).ffound "barcode_arrangement" =
      getCount st.ffound "barcode_arrangement" + fields.count "barcode_arrangement" := by
  obtain ⟨kvs2, first, hp, hh, hlen, hrid, hr⟩ :=
    single_fastq_some_elim header seq extra qual fastq_name flag rid r h
  rw [hkv] at hp
  injection hp with hpe
  subst hpe
  have hkmem : "barcode_arrangement" ∈ validFieldKeys := by decide
  have hc := fieldsFold_counts r "barcode_arrangement" hkmem fields st
  refine ⟨?_, ?_, ?_⟩
  · rw [hr]
    simp [hb]
  · rw [processRead_fnotfound]
    exact hc.2
  · rw [processRead_ffound]
    exact hc.1

/-- C4 (amended, witness): the amended statement applied to a concrete header
without `barcode=`, a one-element field list, and the fresh worker state. -/
theorem barcode_missing_found_witness :
    parseKeyValues (splitWhitespace "@id1 runid=r1").tail = some [("runid", "r1")] ∧
    dictLookup [("runid", "r1")] "barcode" = none ∧
    single_fastq_entry_to_dict ["@id1 runid=r1", "ACGT", "+", "IIII"] "x" "pass" =
      some ("id1",
        { read_id := "id1", run_id := "r1", channel := "", barcode_arrangement := ""
          sequence_length_template := 4, mean_qscore_template := 40, gc_percent := 50
          start_time := none, passes_filtering := "TRUE" }) ∧
    (({ read_id := "id1", run_id := "r1", channel := "", barcode_arrangement := ""
        sequence_length_template := 4, mean_qscore_template := 40, gc_percent := 50
        start_time := none, passes_filtering := "TRUE" } : ReadRecord).barcode_arrangement = "" ∧
     getCount (processRead ["barcode_arrangement"] false "p" initWorkerState
        { read_id := "id1", run_id := "r1", channel := "", barcode_arrangement := ""
          sequence_length_template := 4, mean_qscore_template := 40, gc_percent := 50
          start_time := none, passes_filtering := "TRUE" }).fnotfound "barcode_arrangement" =
       getCount initWorkerState.fnotfound "barcode_arrangement" ∧
     getCount (processRead ["barcode_arrangement"] false "p" initWorkerState
        { read_id := "id1", run_id := "r1", channel := "", barcode_arrangement := ""
          sequence_length_template := 4, mean_qscore_template := 40, gc_percent := 50
          start_time := none, passes_filtering := "TRUE" }).ffound "barcode_arrangement" =
       getCount initWorkerState.ffound "barcode_arrangement" +
         (["barcode_arrangement"] : List String).count "barcode_arrangement") :=
  ⟨by with_unfolding_all decide, by decide, by with_unfolding_all decide,
   barcode_missing_found "@id1 runid=r1" "ACGT" "+" "IIII" "x" "pass" "id1" "p"
     { read_id := "id1", run_id := "r1", channel := "", barcode_arrangement := ""
       sequence_length_template := 4, mean_qscore_template := 40, gc_percent := 50
       start_time := none, passes_filtering := "TRUE" }
     [("runid", "r1")] ["barcode_arrangement"] false initWorkerState
     (by with_unfolding_all decide) (by decide) (by with_unfolding_all decide)⟩

theorem fieldsFold_pushed (fields : List String) (r : ReadRecord) :
    ∀ st : WorkerFileState, (fieldsFold fields r st).pushed = st.pushed := by
  induction fields with
  | nil => intro st; rfl
  | cons f fs ih =>
    intro st
    rw [fieldsFold_cons]
    rcases lookupField (readInfoDict r) f with _ | v
    · exact ih _
    · exact ih _

theorem fieldsFold_invalid (fields : List String) (r : ReadRecord) :
    ∀ st : WorkerFileState, (fieldsFold fields r st).invalid = st.invalid := by
  induction fields with
  | nil => intro st; rfl
  | cons f fs ih =>
    intro st
    rw [fieldsFold_cons]
    rcases lookupField (readInfoDict r) f with _ | v
    · exact ih _
    · exact ih _

theorem fieldsFold_d_unchanged (fields : List String) (r : ReadRecord)
    (hf : ∀ f ∈ fields, f ∉ validFieldKeys) :
    ∀ st : WorkerFileState, (fieldsFold fields r st).d = st.d := by
  induction fields with
  | nil => intro st; rfl
  | cons f fs ih =>
    intro st
    rw [fieldsFold_cons]
    have hnone : lookupField (readInfoDict r) f = none :=
      (lookupField_readInfo_none_iff r f).mpr (hf f (List.mem_cons_self f fs))
    rw [hnone]
    exact ih (fun g hg => hf g (List.mem_cons_of_mem f hg)) _

theorem processRead_pushed_cases (fields : List String) (includePath : Bool) (path : String)
    (st : WorkerFileState) (r : ReadRecord) :
    (processRead fields includePath path st r).pushed = st.pushed ∨
    ∃ dnew, dnew ≠ [] ∧
      (processRead fields includePath path st r).pushed = st.pushed ++ [dnew] := by
  unfold processRead
  cases includePath
  · simp only [Bool.false_eq_true, if_false]
    split
    · left
      exact fieldsFold_pushed fields r st
    · right
      rename_i hd
      exact ⟨(fieldsFold fields r st).d, hd, by rw [fieldsFold_pushed]⟩
  · simp only [if_true]
    split
    · left
      exact fieldsFold_pushed fields r st
    · right
      rename_i hd
      exact ⟨dictSet (fieldsFold fields r st).d "path" (FValue.vStr path), hd,
        by rw [fieldsFold_pushed]⟩

theorem foldl_processRead_nonempty (fields : List String) (includePath : Bool) (path : String) :
    ∀ (reads : List ReadRecord) (st : WorkerFileState),
      (∀ rec ∈ st.pushed, rec ≠ []) →
      ∀ rec ∈ (reads.foldl (processRead fields includePath path) st).pushed, rec ≠ [] := by
  intro reads
  induction reads with
  | nil => intro st h; simpa using h
  | cons r rs ih =>
    intro st h
    rw [List.foldl_cons]
    refine ih _ ?_
    intro rec hrec
    rcases processRead_pushed_cases fields includePath path st r with hc | ⟨dnew, hdn, hc⟩
    · rw [hc] at hrec
      exact h rec hrec
    · rw [hc] at hrec
      rcases List.mem_append.mp hrec with h1 | h2
      · exact h rec h1
      · rw [List.mem_singleton.mp h2]
        exact hdn

theorem foldl_processRead_no_fields (fields : List String) (path : String)
    (hf : ∀ f ∈ fields, f ∉ validFieldKeys) :
    ∀ (reads : List ReadRecord) (st : WorkerFileState), st.d = [] →
      (reads.foldl (processRead fields false path) st).d = [] ∧
      (reads.foldl (processRead fields false path) st).pushed = st.pushed ∧
      (reads.foldl (processRead fields false path) st).invalid =
        st.invalid + reads.length := by
  intro reads
  induction reads with
  | nil => intro st hd; exact ⟨hd, rfl, rfl⟩
  | cons r rs ih =>
    intro st hd
    rw [List.foldl_cons]
    have hd1 : (fieldsFold fields r st).d = [] := by
      rw [fieldsFold_d_unchanged fields r hf st, hd]
    have hstep : processRead fields false path st r =
        { fieldsFold fields r st with invalid := (fieldsFold fields r st).invalid + 1 } := by
      unfold processRead
      simp only [Bool.false_eq_true, if_false]
      rw [if_pos hd1]
    rw [hstep]
    obtain ⟨ha, hb, hc⟩ := ih { fieldsFold fields r st with
      invalid := (fieldsFold fields r st).invalid + 1 } hd1
    refine ⟨ha, ?_, ?_⟩
    · rw [hb]
      exact fieldsFold_pushed fields r st
    · rw [hc]
      simp only [fieldsFold_invalid fields r st, List.length_cons]
      omega

/-- C2 (amended): a worker never pushes an empty record to the record queue;
it drops a read (counting it invalid) exactly when the accumulated dict is
empty, which with path-appending disabled and no allow-listed field among the
extractor's keys happens for every read of the file; with path-appending
enabled a record containing the source path is pushed even when no
allow-listed field is present (so such reads count as valid, contrary to the
original claim). -/
theorem worker_record_emission (fields : List String) (includePath : Bool) (path : String)
    (reads : List ReadRecord) :
    (∀ rec ∈ (read_fastq_file fields includePath path initWorkerState reads).pushed,
      rec ≠ []) ∧
    (includePath = false → (∀ f ∈ fields, f ∉ validFieldKeys) →
      (read_fastq_file fields includePath path initWorkerState reads).pushed = [] ∧
      (read_fastq_file fields includePath path initWorkerState reads).invalid =
        reads.length) := by
  constructor
  · exact foldl_processRead_nonempty fields includePath path reads _ (by intro rec h; simp [initWorkerState] at h)
  · intro hip hf
    subst hip
    obtain ⟨_, hb, hc⟩ :=
      foldl_processRead_no_fields fields path hf reads
        { initWorkerState with d := [] } rfl
    refine ⟨hb, ?_⟩
    have hrw : read_fastq_file fields false path initWorkerState reads =
        List.foldl (processRead fields false path) { initWorkerState with d := [] } reads := rfl
    rw [hrw, hc]
    simp [initWorkerState]

/-- C2 (counterexample): with path-appending enabled and an allow-list
containing only a field the extractor never produces
(`calibration_strand_genome_template`), a read still yields a pushed record —
holding only the source path — and is counted valid, not invalid; so the
claimed "no allow-listed field present for the read implies no record pushed
and the read counted invalid" is false. -/
theorem worker_record_emission_cex :
    (single_fastq_entry_to_dict ["@id1 runid=r1", "ACGT", "+", "IIII"] "x" "pass").map
      (fun p =>
        ((processRead ["calibration_strand_genome_template"] true "/d/x.fastq"
            initWorkerState p.2).pushed,
         (processRead ["calibration_strand_genome_template"] true "/d/x.fastq"
            initWorkerState p.2).valid,
         (processRead ["calibration_strand_genome_template"] true "/d/x.fastq"
            initWorkerState p.2).invalid)) =
      some ([[("path", FValue.vStr "/d/x.fastq")]], 1, 0) := by
  with_unfolding_all decide

/-- C2 (amended, witness): the amended statement applied to one concrete
extracted read, an allow-list of one unproducible field, and path-appending
disabled: nothing is pushed and the read is counted invalid. -/
theorem worker_record_emission_witness :
    (∀ f ∈ (["calibration_strand_genome_template"] : List String), f ∉ validFieldKeys) ∧
    (read_fastq_file ["calibration_strand_genome_template"] false "/d/x.fastq"
      initWorkerState
      [{ read_id := "id1", run_id := "r1", channel := "", barcode_arrangement := ""
         sequence_length_template := 4, mean_qscore_template := 40, gc_percent := 50
         start_time := none, passes_filtering := "TRUE" }]).pushed = [] ∧
    (read_fastq_file ["calibration_strand_genome_template"] false "/d/x.fastq"
      initWorkerState
      [{ read_id := "id1", run_id := "r1", channel := "", barcode_arrangement := ""
         sequence_length_template := 4, mean_qscore_template := 40, gc_percent := 50
         start_time := none, passes_filtering := "TRUE" }]).invalid =
      ([{ read_id := "id1", run_id := "r1", channel := "", barcode_arrangement := ""
          sequence_length_template := 4, mean_qscore_template := 40, gc_percent := 50
          start_time := none, passes_filtering := "TRUE" }] : List ReadRecord).length :=
  ⟨by decide,
   ((worker_record_emission ["calibration_strand_genome_template"] false "/d/x.fastq"
      [{ read_id := "id1", run_id := "r1", channel := "", barcode_arrangement := ""
         sequence_length_template := 4, mean_qscore_template := 40, gc_percent := 50
         start_time := none, passes_filtering := "TRUE" }]).2 rfl (by decide)).1,
   ((worker_record_emission ["calibration_strand_genome_template"] false "/d/x.fastq"
      [{ read_id := "id1", run_id := "r1", channel := "", barcode_arrangement := ""
         sequence_length_template := 4, mean_qscore_template := 40, gc_percent := 50
         start_time := none, passes_filtering := "TRUE" }]).2 rfl (by decide)).2⟩
